import Mathlib

/-
Shallow embedding of the indicator synchronization engine of the
investment-macro-analyzer application (Rust/Tauri), covering:

* `src-tauri/src/db.rs`                — `get_stale_indicators`,
  `save_historical_data`, `update_indicator_status`
* `src-tauri/src/core/timeseries.rs`  — `align_series`
* `src-tauri/src/indicators/yield_curve.rs` — `calculate_spread`
* `src-tauri/src/core/rate_limiter.rs` — `RateLimiter::wait`
* `src-tauri/src/core/orchestrator.rs` — `calculate_and_save`,
  `fetch_and_save_raw`
* `src-tauri/src/core/scheduler.rs`   — `run_pending_updates`

Modelling conventions:
* timestamps (`chrono::DateTime<Utc>`) are modelled as `Int` seconds since
  the epoch; `chrono::Duration::num_minutes` is truncated division by 60
  (`Int.tdiv`, which truncates toward zero exactly as chrono does);
* `f64` values are modelled as `ℚ` (every claim only needs exact
  arithmetic on small decimal values, where `f64` is exact);
* SQL tables are modelled as lists of typed rows; SQLite upserts keyed by
  a unique constraint are modelled explicitly;
* the external collaborators (HTTP fetchers, the SQLite pool, the Tauri
  app handle) are modelled as an explicit environment of functions, and
  the side effects relevant to the claims (fetch calls, DB reads/writes,
  status updates) are collected in an explicit event trace;
* the random number generator of the rate limiter is modelled as an
  arbitrary draw mapped uniformly into the policy interval;
* async suspension (tokio sleeps, rate-limiter waits) has no observable
  effect on any state in scope, so waits are not recorded as events.
-/

/-! ## Basic data model (`src-tauri/src/models.rs`) -/

/-- `models::DataPoint`: one time-series point.  `timestamp` is seconds
since epoch, `value` models the `f64` payload. -/
structure DataPoint where
  timestamp : Int
  value : ℚ
deriving DecidableEq, Repr

/-! ## Character/string helpers

Lean's built-in `String` parsing/uppercasing functions do not reduce in
the kernel, so the few string operations the code under scrutiny uses
(`str::parse::<i64>`, `str::to_uppercase`, `str::contains`,
`trim_end_matches`) are modelled directly on `List Char`. -/

/-- ASCII digit test, as used by integer parsing. -/
def isDigitCh (c : Char) : Bool := 48 ≤ c.toNat && c.toNat ≤ 57

/-- Value of a digit string (only meaningful when all chars are digits). -/
def digitsVal (l : List Char) : Nat :=
  l.foldl (fun a c => a * 10 + (c.toNat - 48)) 0

/-- Parse a nonempty all-digit string. -/
def parseNatDigits (l : List Char) : Option Nat :=
  if l ≠ [] ∧ l.all isDigitCh then some (digitsVal l) else none

/-- Model of Rust `str::parse::<i64>` (optional sign, then digits;
overflow is not modelled — refresh intervals are tiny). -/
def parseIntStr (s : String) : Option Int :=
  match s.data with
  | '+' :: rest => (parseNatDigits rest).map (fun n => (n : Int))
  | '-' :: rest => (parseNatDigits rest).map (fun n => -(n : Int))
  | l => (parseNatDigits l).map (fun n => (n : Int))

/-- Model of `trim_end_matches('m')`: drop every trailing `'m'`. -/
def trimEndM (s : String) : String :=
  String.mk ((s.data.reverse.dropWhile (fun c => c = 'm')).reverse)

/-- `needle` occurs at the head of `hay`. -/
def leadingMatch : List Char → List Char → Bool
  | [], _ => true
  | _ :: _, [] => false
  | a :: p, b :: l => a = b && leadingMatch p l

/-- Substring occurrence on char lists. -/
def hasSub (needle : List Char) : List Char → Bool
  | [] => leadingMatch needle []
  | c :: rest => leadingMatch needle (c :: rest) || hasSub needle rest

/-- Model of Rust `str::contains(needle)`. -/
def containsSub (hay needle : String) : Bool := hasSub needle.data hay.data

/-! ## `db.rs`: staleness query (`get_stale_indicators`) -/

/-- One row of the `indicators` table, restricted to the columns
`get_stale_indicators` reads. -/
structure IndicatorRow where
  slug : String
  source : String
  lastUpdatedAt : Option Int
  refreshInterval : Option String
deriving DecidableEq

/-- `refresh_interval` parsing in `get_stale_indicators`
(`db.rs:170-176`): a missing column reads as `"1440m"`, then trailing
`'m'`s are trimmed and the rest parsed as `i64`, defaulting to `1440`
(24h) when the parse fails. -/
def parseRefreshMinutes (refresh : Option String) : Int :=
  match parseIntStr (trimEndM (refresh.getD "1440m")) with
  | some n => n
  | none => 1440

/-- `chrono::Duration::num_minutes` on a duration of `seconds` seconds:
division by 60 truncated toward zero. -/
def numMinutes (seconds : Int) : Int := Int.tdiv seconds 60

/-- Staleness test for one row (`db.rs:178-190`): stale when never
updated, or when the elapsed whole minutes reach the refresh interval. -/
def isStaleRow (now : Int) (row : IndicatorRow) : Bool :=
  match row.lastUpdatedAt with
  | some t => decide (parseRefreshMinutes row.refreshInterval ≤ numMinutes (now - t))
  | none => true

/-- `db::get_stale_indicators` (`db.rs:155-194`): the `(slug, source)`
pairs of all stale rows, in table order. -/
def get_stale_indicators (now : Int) : List IndicatorRow → List (String × String)
  | [] => []
  | r :: rest =>
    if isStaleRow now r then (r.slug, r.source) :: get_stale_indicators now rest
    else get_stale_indicators now rest

/-! ## `db.rs`: series persistence (`save_historical_data`) -/

/-- One row of the `historical_data` table.  The `indicator_id` foreign
key is identified with the (unique) `slug` it resolves to. -/
structure SeriesRow where
  slug : String
  timestamp : Int
  value : ℚ
deriving DecidableEq

/-- The `(indicator_id, timestamp)` conflict key of the upsert. -/
def rowKeyIs (slug : String) (ts : Int) (r : SeriesRow) : Bool :=
  r.slug = slug && r.timestamp = ts

/-- One `INSERT ... ON CONFLICT (indicator_id, timestamp) DO UPDATE SET
value = EXCLUDED.value` (`db.rs:63-73`). -/
def upsertPoint (store : List SeriesRow) (slug : String) (ts : Int) (v : ℚ) :
    List SeriesRow :=
  if store.any (rowKeyIs slug ts) then
    store.map (fun r => if rowKeyIs slug ts r then { r with value := v } else r)
  else
    store ++ [⟨slug, ts, v⟩]

/-- `db::save_historical_data` (`db.rs:24-78`): upsert every point of the
series, in order. -/
def save_historical_data (store : List SeriesRow) (slug : String)
    (data : List DataPoint) : List SeriesRow :=
  data.foldl (fun s p => upsertPoint s slug p.timestamp p.value) store

/-! ### Staleness lemmas -/

theorem tdiv_ge_iff_of_nonneg {d m : Int} (hd : 0 ≤ d) :
    m ≤ Int.tdiv d 60 ↔ 60 * m ≤ d := by
  rw [Int.tdiv_eq_ediv hd (by norm_num)]
  rw [Int.le_ediv_iff_mul_le (by norm_num : (0 : Int) < 60)]
  constructor <;> intro h <;> linarith

theorem isStaleRow_iff (now : Int) (r : IndicatorRow)
    (h : ∀ t, r.lastUpdatedAt = some t → t ≤ now) :
    isStaleRow now r = true ↔
      (r.lastUpdatedAt = none ∨
        ∃ t, r.lastUpdatedAt = some t ∧
          60 * parseRefreshMinutes r.refreshInterval ≤ now - t) := by
  unfold isStaleRow
  cases hlu : r.lastUpdatedAt with
  | none => simp
  | some t =>
    have ht : t ≤ now := h t hlu
    have hd : (0 : Int) ≤ now - t := by omega
    simp only [decide_eq_true_eq, numMinutes]
    rw [tdiv_ge_iff_of_nonneg hd]
    constructor
    · intro hle; exact Or.inr ⟨t, rfl, hle⟩
    · rintro (hc | ⟨t', ht', hle⟩)
      · exact absurd hc (by simp)
      · cases ht'; exact hle

theorem mem_get_stale_indicators (now : Int) (rows : List IndicatorRow)
    (p : String × String) :
    p ∈ get_stale_indicators now rows ↔
      ∃ r ∈ rows, p = (r.slug, r.source) ∧ isStaleRow now r = true := by
  induction rows with
  | nil => simp [get_stale_indicators]
  | cons r rest ih =>
    unfold get_stale_indicators
    by_cases hs : isStaleRow now r = true
    · rw [if_pos hs]
      constructor
      · intro hp
        rcases List.mem_cons.mp hp with hp | hp
        · exact ⟨r, List.mem_cons_self r rest, hp, hs⟩
        · obtain ⟨r', hr', h1, h2⟩ := ih.mp hp
          exact ⟨r', List.mem_cons_of_mem r hr', h1, h2⟩
      · rintro ⟨r', hr', h1, h2⟩
        rcases List.mem_cons.mp hr' with h | h
        · subst h; exact List.mem_cons.mpr (Or.inl h1)
        · exact List.mem_cons_of_mem _ (ih.mpr ⟨r', h, h1, h2⟩)
    · rw [if_neg hs, ih]
      constructor
      · rintro ⟨r', hr', h1, h2⟩
        exact ⟨r', List.mem_cons_of_mem r hr', h1, h2⟩
      · rintro ⟨r', hr', h1, h2⟩
        rcases List.mem_cons.mp hr' with h | h
        · subst h; exact absurd h2 hs
        · exact ⟨r', h, h1, h2⟩

/-- C4.  `getStaleIndicators` returns exactly the stale rows: a row is in
the returned set iff its `lastUpdatedAt` is absent or the elapsed time
reaches the refresh interval; with a 60-minute interval, 61 minutes ago is
stale, 59 minutes ago is not, and an absent `lastUpdatedAt` is always
stale; an absent or unparsable `refresh_interval` defaults to 1440 minutes
(24h).  The hypothesis `hpast` says stored update times are not in the
future, which is how the column is ever written (`update_indicator_status`
writes `Utc::now()`). -/
theorem claim_C4_staleness :
    (∀ (now : Int) (rows : List IndicatorRow),
      (∀ r ∈ rows, ∀ t, r.lastUpdatedAt = some t → t ≤ now) →
      ∀ p, p ∈ get_stale_indicators now rows ↔
        ∃ r ∈ rows, p = (r.slug, r.source) ∧
          (r.lastUpdatedAt = none ∨
            ∃ t, r.lastUpdatedAt = some t ∧
              60 * parseRefreshMinutes r.refreshInterval ≤ now - t)) ∧
    (∀ now : Int,
      isStaleRow now ⟨"s", "FRED", some (now - 61 * 60), some "60m"⟩ = true) ∧
    (∀ now : Int,
      isStaleRow now ⟨"s", "FRED", some (now - 59 * 60), some "60m"⟩ = false) ∧
    (∀ (now : Int) (r : IndicatorRow), r.lastUpdatedAt = none →
      isStaleRow now r = true) ∧
    parseRefreshMinutes none = 1440 ∧
    parseRefreshMinutes (some "often") = 1440 := by
  refine ⟨?_, ?_, ?_, ?_, by decide, by decide⟩
  · intro now rows hpast p
    rw [mem_get_stale_indicators]
    constructor
    · rintro ⟨r, hr, hpr, hst⟩
      exact ⟨r, hr, hpr, (isStaleRow_iff now r (hpast r hr)).mp hst⟩
    · rintro ⟨r, hr, hpr, hst⟩
      exact ⟨r, hr, hpr, (isStaleRow_iff now r (hpast r hr)).mpr hst⟩
  · intro now
    have : parseRefreshMinutes (some "60m") = 60 := by decide
    simp only [isStaleRow, this, numMinutes, decide_eq_true_eq]
    have h1 : now - (now - 61 * 60) = 3660 := by ring
    rw [h1]; decide
  · intro now
    have : parseRefreshMinutes (some "60m") = 60 := by decide
    simp only [isStaleRow, this, numMinutes]
    have h1 : now - (now - 59 * 60) = 3540 := by ring
    rw [h1]; decide
  · intro now r h
    unfold isStaleRow
    rw [h]

/-- Witness for C4 at concrete inputs: one never-updated row is returned
as stale. -/
theorem claim_C4_staleness_witness :
    ("a", "FRED") ∈ get_stale_indicators 0 [⟨"a", "FRED", none, none⟩] := by
  refine (claim_C4_staleness.1 0 [⟨"a", "FRED", none, none⟩] ?_
    ("a", "FRED")).mpr ⟨⟨"a", "FRED", none, none⟩, by simp, rfl, Or.inl rfl⟩
  intro r hr t ht
  simp only [List.mem_singleton] at hr
  subst hr
  simp at ht

/-! ### Upsert lemmas -/

theorem rowKeyIs_mk (slug : String) (ts : Int) (v : ℚ) :
    rowKeyIs slug ts ⟨slug, ts, v⟩ = true := by
  simp [rowKeyIs]

theorem rowKeyIs_update (slug : String) (ts : Int) (v : ℚ) (r : SeriesRow) :
    rowKeyIs slug ts { r with value := v } = rowKeyIs slug ts r := by
  cases r; simp [rowKeyIs]

theorem eq_of_rowKeyIs {slug : String} {ts : Int} {r : SeriesRow}
    (h : rowKeyIs slug ts r = true) : r.slug = slug ∧ r.timestamp = ts := by
  cases r
  simp only [rowKeyIs, Bool.and_eq_true, decide_eq_true_eq] at h
  exact h

theorem rowKeyIs_ite_update (slug : String) (ts : Int) (v : ℚ) (r : SeriesRow) :
    rowKeyIs slug ts
        (if rowKeyIs slug ts r then { r with value := v } else r)
      = rowKeyIs slug ts r := by
  by_cases h : rowKeyIs slug ts r = true
  · rw [if_pos h, rowKeyIs_update]
  · rw [if_neg h]

theorem filter_map_upsertFun (store : List SeriesRow) (slug : String)
    (ts : Int) (v : ℚ) :
    (store.map
        (fun r => if rowKeyIs slug ts r then { r with value := v } else r)).filter
          (rowKeyIs slug ts)
      = (store.filter (rowKeyIs slug ts)).map
          (fun r => if rowKeyIs slug ts r then { r with value := v } else r) := by
  induction store with
  | nil => rfl
  | cons a rest ih =>
    cases ha : rowKeyIs slug ts a
    · simp [List.filter_cons, rowKeyIs_ite_update, ha, ih]
    · simp [List.filter_cons, rowKeyIs_ite_update, ha, ih, rowKeyIs_update]

theorem filter_upsertPoint (store : List SeriesRow) (slug : String)
    (ts : Int) (v : ℚ)
    (h : ((store.filter (rowKeyIs slug ts)).length ≤ 1)) :
    (upsertPoint store slug ts v).filter (rowKeyIs slug ts) = [⟨slug, ts, v⟩] := by
  unfold upsertPoint
  by_cases hany : store.any (rowKeyIs slug ts) = true
  · rw [if_pos hany, filter_map_upsertFun]
    obtain ⟨x, hx⟩ := List.any_eq_true.mp hany
    have hxmem : x ∈ store.filter (rowKeyIs slug ts) :=
      List.mem_filter.mpr ⟨hx.1, hx.2⟩
    have hlen1 : (store.filter (rowKeyIs slug ts)).length = 1 := by
      have : 0 < (store.filter (rowKeyIs slug ts)).length :=
        List.length_pos.mpr (List.ne_nil_of_mem hxmem)
      omega
    obtain ⟨y, hy⟩ := List.length_eq_one.mp hlen1
    rw [hy]
    have hky : rowKeyIs slug ts y = true := by
      have : y ∈ store.filter (rowKeyIs slug ts) := by rw [hy]; simp
      exact (List.mem_filter.mp this).2
    obtain ⟨hys, hyt⟩ := eq_of_rowKeyIs hky
    simp only [List.map_cons, List.map_nil, if_pos hky]
    cases y
    simp_all
  · rw [if_neg hany]
    have hnone : store.filter (rowKeyIs slug ts) = [] := by
      rw [List.filter_eq_nil_iff]
      intro a ha hk
      exact hany (List.any_eq_true.mpr ⟨a, ha, hk⟩)
    rw [List.filter_append, hnone]
    simp [rowKeyIs_mk]

theorem length_upsertPoint_of_any (store : List SeriesRow) (slug : String)
    (ts : Int) (v : ℚ) (h : store.any (rowKeyIs slug ts) = true) :
    (upsertPoint store slug ts v).length = store.length := by
  unfold upsertPoint
  rw [if_pos h, List.length_map]

theorem any_of_filter_singleton {store : List SeriesRow} {slug : String}
    {ts : Int} {r : SeriesRow}
    (h : store.filter (rowKeyIs slug ts) = [r]) :
    store.any (rowKeyIs slug ts) = true := by
  have hr : r ∈ store.filter (rowKeyIs slug ts) := by rw [h]; simp
  obtain ⟨hmem, hk⟩ := List.mem_filter.mp hr
  exact List.any_eq_true.mpr ⟨r, hmem, hk⟩

/-- C5.  `save_historical_data` is an upsert keyed by `(slug, timestamp)`:
after saving `(ts, v)` once, saving `(ts, v)` again leaves exactly one
stored point with that key, holding `v`, without changing the table size;
saving a different `v'` for the same key overwrites that one point (to
`v'`) and likewise adds no duplicate.  The hypothesis is the SQLite
`UNIQUE (indicator_id, timestamp)` table constraint (at most one row with
the key). -/
theorem claim_C5_upsert (store : List SeriesRow) (slug : String)
    (ts : Int) (v v' : ℚ)
    (h : ((store.filter (rowKeyIs slug ts)).length ≤ 1)) :
    ((save_historical_data (save_historical_data store slug [⟨ts, v⟩]) slug
        [⟨ts, v⟩]).filter (rowKeyIs slug ts) = [⟨slug, ts, v⟩] ∧
      (save_historical_data (save_historical_data store slug [⟨ts, v⟩]) slug
        [⟨ts, v⟩]).length
        = (save_historical_data store slug [⟨ts, v⟩]).length) ∧
    ((save_historical_data (save_historical_data store slug [⟨ts, v⟩]) slug
        [⟨ts, v'⟩]).filter (rowKeyIs slug ts) = [⟨slug, ts, v'⟩] ∧
      (save_historical_data (save_historical_data store slug [⟨ts, v⟩]) slug
        [⟨ts, v'⟩]).length
        = (save_historical_data store slug [⟨ts, v⟩]).length) := by
  have hsave : ∀ w : ℚ, save_historical_data store slug [⟨ts, w⟩]
      = upsertPoint store slug ts w := fun w => rfl
  have h1 : (save_historical_data store slug [⟨ts, v⟩]).filter (rowKeyIs slug ts)
      = [⟨slug, ts, v⟩] := by
    rw [hsave]; exact filter_upsertPoint store slug ts v h
  have hany1 : (save_historical_data store slug [⟨ts, v⟩]).any (rowKeyIs slug ts)
      = true := any_of_filter_singleton h1
  have hlen1 : ((save_historical_data store slug [⟨ts, v⟩]).filter
      (rowKeyIs slug ts)).length ≤ 1 := by rw [h1]; simp
  refine ⟨⟨?_, ?_⟩, ?_, ?_⟩
  · exact filter_upsertPoint _ slug ts v hlen1
  · exact length_upsertPoint_of_any _ slug ts v hany1
  · exact filter_upsertPoint _ slug ts v' hlen1
  · exact length_upsertPoint_of_any _ slug ts v' hany1

/-- Witness for C5 at concrete inputs (the empty table). -/
theorem claim_C5_upsert_witness :
    ((save_historical_data (save_historical_data [] "spx" [⟨7, 5⟩]) "spx"
        [⟨7, 5⟩]).filter (rowKeyIs "spx" 7) = [⟨"spx", 7, 5⟩] ∧
      (save_historical_data (save_historical_data [] "spx" [⟨7, 5⟩]) "spx"
        [⟨7, 5⟩]).length
        = (save_historical_data [] "spx" [⟨7, 5⟩]).length) ∧
    ((save_historical_data (save_historical_data [] "spx" [⟨7, 5⟩]) "spx"
        [⟨7, 9⟩]).filter (rowKeyIs "spx" 7) = [⟨"spx", 7, 9⟩] ∧
      (save_historical_data (save_historical_data [] "spx" [⟨7, 5⟩]) "spx"
        [⟨7, 9⟩]).length
        = (save_historical_data [] "spx" [⟨7, 5⟩]).length) :=
  claim_C5_upsert [] "spx" 7 5 9 (by decide)

/-! ## `core/timeseries.rs`: series alignment (`align_series`)

The Rust code converts both series to `BTreeMap`s (sorted, key-unique,
later duplicate inserts overwrite), then walks the keys of series A in
ascending order, carrying the latest B value at or before the current A
key (`last_b_val`), emitting a row whenever that value exists. -/

/-- `BTreeMap` insert on an ascending association list: replaces on an
equal key. -/
def insertSorted : List (Int × ℚ) → Int × ℚ → List (Int × ℚ)
  | [], kv => [kv]
  | (k, v) :: rest, kv =>
    if kv.1 < k then kv :: (k, v) :: rest
    else if kv.1 = k then (kv.1, kv.2) :: rest
    else (k, v) :: insertSorted rest kv

/-- `series.iter().map(|dp| (dp.timestamp, dp.value)).collect::<BTreeMap<_,_>>()`. -/
def toSortedMap (s : List DataPoint) : List (Int × ℚ) :=
  s.foldl (fun m dp => insertSorted m (dp.timestamp, dp.value)) []

/-- The inner `while let Some((date_b, val_b)) = b_iter.peek()` loop of
`align_series` (`timeseries.rs:34-41`): consume B entries at or before
`ta`, remembering the last consumed value. -/
def advanceB : List (Int × ℚ) → Int → Option ℚ → Option ℚ × List (Int × ℚ)
  | [], _, last => (last, [])
  | (tb, vb) :: rest, ta, last =>
    if tb ≤ ta then advanceB rest ta (some vb) else (last, (tb, vb) :: rest)

/-- The outer `for (date_a, val_a) in &map_a` loop of `align_series`
(`timeseries.rs:32-48`). -/
def alignGo : List (Int × ℚ) → List (Int × ℚ) → Option ℚ → List (Int × ℚ × ℚ)
  | [], _, _ => []
  | (ta, va) :: restA, bs, last =>
    match advanceB bs ta last with
    | (some vb, bs') => (ta, va, vb) :: alignGo restA bs' (some vb)
    | (none, bs') => alignGo restA bs' none

/-- `timeseries::align_series` (`timeseries.rs:10-51`).  The `_method`
argument is unused in the source (the binding is named `_method` there
too). -/
def align_series (series_a series_b : List DataPoint) (_method : String) :
    List (Int × ℚ × ℚ) :=
  alignGo (toSortedMap series_a) (toSortedMap series_b) none

/-! ### Specification-side description of the join -/

/-- Forward-fill lookup: the last value among the entries with key ≤ `t`
(in list order), else the accumulator. -/
def lookupFF : List (Int × ℚ) → Int → Option ℚ → Option ℚ
  | [], _, last => last
  | (tb, vb) :: rest, t, last =>
    if tb ≤ t then lookupFF rest t (some vb) else last

/-- Spec-side: the value of the latest (**last in sorted order**) point of
`m` at or before `t`, if any. -/
def latestAtOrBefore (m : List (Int × ℚ)) (t : Int) : Option ℚ :=
  ((m.filter (fun p => decide (p.1 ≤ t))).getLast?).map Prod.snd

/-- Spec-side description of the join actually performed: one row per
distinct A timestamp that has some B point at or before it, pairing A's
value with B's latest value at or before it. -/
def ffillSpec (a b : List DataPoint) : List (Int × ℚ × ℚ) :=
  (toSortedMap a).filterMap (fun p =>
    (latestAtOrBefore (toSortedMap b) p.1).map (fun w => (p.1, p.2, w)))

/-- Ascending strict key order (the `BTreeMap` iteration invariant). -/
def KeysSorted (l : List (Int × ℚ)) : Prop :=
  l.Pairwise (fun p q => p.1 < q.1)

theorem advanceB_fst (bs : List (Int × ℚ)) (ta : Int) (last : Option ℚ) :
    (advanceB bs ta last).1 = lookupFF bs ta last := by
  induction bs generalizing last with
  | nil => rfl
  | cons p rest ih =>
    obtain ⟨tb, vb⟩ := p
    unfold advanceB lookupFF
    by_cases h : tb ≤ ta
    · rw [if_pos h, if_pos h, ih]
    · rw [if_neg h, if_neg h]

theorem lookupFF_advanceB (bs : List (Int × ℚ)) (ta t' : Int)
    (last : Option ℚ) (h : ta ≤ t') :
    lookupFF (advanceB bs ta last).2 t' ((advanceB bs ta last).1)
      = lookupFF bs t' last := by
  induction bs generalizing last with
  | nil => rfl
  | cons p rest ih =>
    obtain ⟨tb, vb⟩ := p
    unfold advanceB
    by_cases hb : tb ≤ ta
    · rw [if_pos hb, ih (some vb)]
      rw [show lookupFF ((tb, vb) :: rest) t' last
            = if tb ≤ t' then lookupFF rest t' (some vb) else last from rfl]
      rw [if_pos (le_trans hb h)]
    · rw [if_neg hb]

theorem mem_insertSorted (l : List (Int × ℚ)) (kv x : Int × ℚ)
    (h : x ∈ insertSorted l kv) : x.1 = kv.1 ∨ x ∈ l := by
  induction l with
  | nil =>
    simp only [insertSorted, List.mem_singleton] at h
    exact Or.inl (by rw [h])
  | cons p rest ih =>
    obtain ⟨k, v⟩ := p
    unfold insertSorted at h
    by_cases h1 : kv.1 < k
    · rw [if_pos h1] at h
      rcases List.mem_cons.mp h with h' | h'
      · exact Or.inl (by rw [h'])
      · exact Or.inr h'
    · rw [if_neg h1] at h
      by_cases h2 : kv.1 = k
      · rw [if_pos h2] at h
        rcases List.mem_cons.mp h with h' | h'
        · exact Or.inl (by rw [h'])
        · exact Or.inr (List.mem_cons_of_mem _ h')
      · rw [if_neg h2] at h
        rcases List.mem_cons.mp h with h' | h'
        · exact Or.inr (List.mem_cons.mpr (Or.inl h'))
        · rcases ih h' with h'' | h''
          · exact Or.inl h''
          · exact Or.inr (List.mem_cons_of_mem _ h'')

theorem insertSorted_sorted (l : List (Int × ℚ)) (kv : Int × ℚ)
    (h : KeysSorted l) : KeysSorted (insertSorted l kv) := by
  induction l with
  | nil => simp [insertSorted, KeysSorted]
  | cons p rest ih =>
    obtain ⟨k, v⟩ := p
    obtain ⟨hk, hrest⟩ := List.pairwise_cons.mp h
    unfold insertSorted
    by_cases h1 : kv.1 < k
    · rw [if_pos h1]
      refine List.pairwise_cons.mpr ⟨?_, h⟩
      intro q hq
      rcases List.mem_cons.mp hq with h' | h'
      · rw [h']; exact h1
      · exact lt_trans h1 (hk q h')
    · rw [if_neg h1]
      by_cases h2 : kv.1 = k
      · rw [if_pos h2]
        refine List.pairwise_cons.mpr ⟨?_, hrest⟩
        intro q hq
        rw [h2]
        exact hk q hq
      · rw [if_neg h2]
        refine List.pairwise_cons.mpr ⟨?_, ih hrest⟩
        intro q hq
        rcases mem_insertSorted rest kv q hq with h' | h'
        · rw [h']; omega
        · exact hk q h'

theorem toSortedMap_sorted (s : List DataPoint) :
    KeysSorted (toSortedMap s) := by
  suffices h : ∀ acc, KeysSorted acc →
      KeysSorted (s.foldl (fun m dp => insertSorted m (dp.timestamp, dp.value)) acc) by
    exact h [] (List.Pairwise.nil)
  induction s with
  | nil => intro acc hacc; exact hacc
  | cons dp rest ih =>
    intro acc hacc
    exact ih _ (insertSorted_sorted acc _ hacc)

theorem lookupFF_filter (m : List (Int × ℚ)) (t : Int) (last : Option ℚ)
    (h : KeysSorted m) :
    lookupFF m t last
      = (match (m.filter (fun p => decide (p.1 ≤ t))).getLast? with
         | some p => some p.2
         | none => last) := by
  induction m generalizing last with
  | nil => rfl
  | cons p rest ih =>
    obtain ⟨tb, vb⟩ := p
    obtain ⟨hk, hrest⟩ := List.pairwise_cons.mp h
    unfold lookupFF
    by_cases hb : tb ≤ t
    · rw [if_pos hb, ih (some vb) hrest]
      have hfc : ((tb, vb) :: rest).filter (fun p => decide (p.1 ≤ t))
          = (tb, vb) :: rest.filter (fun p => decide (p.1 ≤ t)) := by
        rw [List.filter_cons]
        simp [hb]
      rw [hfc]
      cases hfr : rest.filter (fun p => decide (p.1 ≤ t)) with
      | nil => simp
      | cons q qs =>
        rw [List.getLast?_cons_cons]
        rw [List.getLast?_eq_getLast (q :: qs) (by simp)]
    · rw [if_neg hb]
      have hfc : ((tb, vb) :: rest).filter (fun p => decide (p.1 ≤ t)) = [] := by
        rw [List.filter_cons]
        simp only [hb, decide_False]
        rw [if_neg (by simp)]
        rw [List.filter_eq_nil_iff]
        intro q hq
        have := hk q hq
        simp only [decide_eq_true_eq]
        omega
      rw [hfc]
      simp

theorem alignGo_spec (aL : List (Int × ℚ)) :
    ∀ (bs B : List (Int × ℚ)) (last : Option ℚ), KeysSorted aL →
    (∀ p ∈ aL, lookupFF bs p.1 last = lookupFF B p.1 none) →
    alignGo aL bs last
      = aL.filterMap (fun p =>
          (lookupFF B p.1 none).map (fun w => (p.1, p.2, w))) := by
  induction aL with
  | nil => intro bs B last _ _; rfl
  | cons p restA ih =>
    intro bs B last hsorted hlook
    obtain ⟨ta, va⟩ := p
    obtain ⟨hta, hrest⟩ := List.pairwise_cons.mp hsorted
    have hhead : lookupFF bs ta last = lookupFF B ta none :=
      hlook (ta, va) (List.mem_cons_self _ _)
    rcases hadv : advanceB bs ta last with ⟨l', bs'⟩
    have hl' : l' = lookupFF B ta none := by
      have hfst := advanceB_fst bs ta last
      rw [hadv] at hfst
      rw [← hhead, ← hfst]
    have htail' : ∀ q ∈ restA, lookupFF bs' q.1 l' = lookupFF B q.1 none := by
      intro q hq
      have h2 := lookupFF_advanceB bs ta q.1 last (le_of_lt (hta q hq))
      rw [hadv] at h2
      exact h2.trans (hlook q (List.mem_cons_of_mem _ hq))
    unfold alignGo
    rw [hadv]
    cases hB : lookupFF B ta none with
    | some w =>
      have hlw : l' = some w := by rw [hl', hB]
      subst hlw
      have htail2 : ∀ q ∈ restA,
          lookupFF bs' q.1 (some w) = lookupFF B q.1 none := htail'
      dsimp only
      rw [ih bs' B (some w) hrest htail2]
      simp [List.filterMap_cons, hB]
    | none =>
      have hlw : l' = none := by rw [hl', hB]
      subst hlw
      dsimp only
      rw [ih bs' B none hrest htail']
      simp [List.filterMap_cons, hB]

/-- C10.  `align_series` ignores its join-method argument (any two method
strings give identical results), and the join actually performed is a
forward fill keyed to A's sorted distinct timestamps: one row per A
timestamp that has some B point at or before it, pairing A's value with
the latest B value at or before that timestamp (`ffillSpec`); A
timestamps earlier than every B point produce no row (the `filterMap`
drops them).  In particular the "inner" join requested by the yield-curve
spread calculators is this forward-fill join, not a strict timestamp
intersection. -/
theorem claim_C10_align_series :
    (∀ (a b : List DataPoint) (m1 m2 : String),
      align_series a b m1 = align_series a b m2) ∧
    (∀ (a b : List DataPoint) (m : String),
      align_series a b m = ffillSpec a b) := by
  constructor
  · intro a b m1 m2; rfl
  · intro a b m
    unfold align_series ffillSpec
    rw [alignGo_spec (toSortedMap a) (toSortedMap b) (toSortedMap b) none
      (toSortedMap_sorted a) (fun p _ => rfl)]
    apply List.filterMap_congr
    intro p _
    rw [lookupFF_filter (toSortedMap b) p.1 none (toSortedMap_sorted b)]
    unfold latestAtOrBefore
    cases ((toSortedMap b).filter (fun q => decide (q.1 ≤ p.1))).getLast? with
    | none => rfl
    | some q => rfl

/-! ## `core/rate_limiter.rs`: `RateLimiter::wait`

`wait` uppercases the provider name, selects a delay policy, and sleeps.
Jittered policies draw `rng.gen_range(lo..hi)`; the RNG is modelled as an
arbitrary `draw : Nat` mapped uniformly into `[lo, hi)`.  Provider names
are ASCII, so `str::to_uppercase` is modelled as ASCII uppercasing. -/

/-- ASCII uppercase of one character. -/
def charUpper (c : Char) : Char :=
  if 97 ≤ c.toNat ∧ c.toNat ≤ 122 then Char.ofNat (c.toNat - 32) else c

/-- Model of `str::to_uppercase` on ASCII provider names. -/
def upperStr (s : String) : String := String.mk (s.data.map charUpper)

/-- A wait policy: jittered range `[lo, hi)` or a fixed delay, in
milliseconds. -/
inductive DelayPolicy where
  | jitter (lo hi : Nat)
  | fixedDelay (ms : Nat)
deriving DecidableEq

/-- The `match source.to_uppercase().as_str()` dispatch of
`RateLimiter::wait` (`rate_limiter.rs:10-37`). -/
def policyFor (source : String) : DelayPolicy :=
  if upperStr source = "FRED" then .jitter 1500 3000
  else if upperStr source = "TIINGO" then .jitter 1000 2000
  else if upperStr source = "UPBIT" ∨ upperStr source = "BINANCE" then
    .fixedDelay 100
  else .fixedDelay 100

/-- `rng.gen_range(lo..hi)` for an arbitrary RNG draw. -/
def genRange (lo hi draw : Nat) : Nat := lo + draw % (hi - lo)

/-- The duration (ms) slept by one `RateLimiter::wait(source)` call, as a
function of the RNG draw. -/
def waitDelayMs (source : String) (draw : Nat) : Nat :=
  match policyFor source with
  | .jitter lo hi => genRange lo hi draw
  | .fixedDelay ms => ms

theorem charUpper_idem (c : Char) : charUpper (charUpper c) = charUpper c := by
  by_cases h : 97 ≤ c.toNat ∧ c.toNat ≤ 122
  · have hv : Nat.isValidChar (c.toNat - 32) := Or.inl (by omega)
    have ht : (Char.ofNat (c.toNat - 32)).toNat = c.toNat - 32 := by
      unfold Char.ofNat
      rw [dif_pos hv]
      rfl
    unfold charUpper
    rw [if_pos h]
    rw [if_neg (by rw [ht]; omega)]
  · unfold charUpper
    rw [if_neg h, if_neg h]

theorem upperStr_idem (s : String) : upperStr (upperStr s) = upperStr s := by
  unfold upperStr
  have : ((s.data.map charUpper).map charUpper) = s.data.map charUpper := by
    rw [List.map_map]
    exact List.map_congr_left (fun c _ => charUpper_idem c)
  exact congrArg String.mk this

theorem policyFor_cases (s : String) :
    policyFor s = DelayPolicy.jitter 1500 3000 ∨
    policyFor s = DelayPolicy.jitter 1000 2000 ∨
    policyFor s = DelayPolicy.fixedDelay 100 := by
  unfold policyFor
  split_ifs <;> simp

/-- C8.  `RateLimiter::wait`: (1) the policy selection is
case-insensitive — any provider name selects the same policy as its
uppercased form; (2) every provider name matching none of the known
policies receives the minimal default 100 ms delay; (3) for a jittered
policy the drawn delay always lies in `[lo, hi)`, whatever the RNG draw;
(4)–(5) FRED's policy is jitter `[1500, 3000)` ms and Tiingo's is jitter
`[1000, 2000)` ms. -/
theorem claim_C8_rate_limiter :
    (∀ s : String, policyFor (upperStr s) = policyFor s) ∧
    (∀ s : String, upperStr s ≠ "FRED" → upperStr s ≠ "TIINGO" →
      upperStr s ≠ "UPBIT" → upperStr s ≠ "BINANCE" →
      policyFor s = DelayPolicy.fixedDelay 100) ∧
    (∀ (s : String) (lo hi draw : Nat),
      policyFor s = DelayPolicy.jitter lo hi →
      lo ≤ waitDelayMs s draw ∧ waitDelayMs s draw < hi) ∧
    policyFor "FRED" = DelayPolicy.jitter 1500 3000 ∧
    policyFor "Tiingo" = DelayPolicy.jitter 1000 2000 := by
  refine ⟨?_, ?_, ?_, by decide, by decide⟩
  · intro s
    unfold policyFor
    rw [upperStr_idem]
  · intro s h1 h2 h3 h4
    unfold policyFor
    rw [if_neg h1, if_neg h2, if_neg (by tauto)]
  · intro s lo hi draw hpol
    have hw : waitDelayMs s draw = lo + draw % (hi - lo) := by
      unfold waitDelayMs genRange
      rw [hpol]
    have hlohi : lo < hi := by
      rcases policyFor_cases s with h | h | h <;> rw [hpol] at h
      · cases h; omega
      · cases h; omega
      · simp at h
    rw [hw]
    refine ⟨Nat.le_add_right _ _, ?_⟩
    have := Nat.mod_lt draw (show 0 < hi - lo by omega)
    omega

/-- Witness for C8 at concrete inputs: an unknown provider gets the 100 ms
default, and a lowercase `"fred"` draw stays within `[1500, 3000)`. -/
theorem claim_C8_rate_limiter_witness :
    policyFor "yahoo finance" = DelayPolicy.fixedDelay 100 ∧
    (1500 ≤ waitDelayMs "fred" 987654 ∧ waitDelayMs "fred" 987654 < 3000) :=
  ⟨claim_C8_rate_limiter.2.1 "yahoo finance"
      (by decide) (by decide) (by decide) (by decide),
    claim_C8_rate_limiter.2.2.1 "fred" 1500 3000 987654 (by decide)⟩

/-! ## `indicators/yield_curve.rs`: `calculate_spread`

Spread between two series `A - B` after aligning them (the calculators
request an `"inner"` join, which `align_series` ignores). -/

/-- `yield_curve::calculate_spread` (`yield_curve.rs:43-64`). -/
def calculate_spread (inputs : List (List DataPoint)) (name_a name_b : String) :
    Except String (List DataPoint) :=
  if inputs.length < 2 then
    .error ("Spread calculation requires 2 inputs: " ++ name_a ++ " and " ++ name_b)
  else
    .ok ((align_series (inputs.getD 0 []) (inputs.getD 1 []) "inner").map
      (fun x => ⟨x.1, x.2.1 - x.2.2⟩))

/-! ## `core/orchestrator.rs`: the resolve/fetch/calculate orchestrator

The SQLite pool, the registry, and the per-provider HTTP fetchers are
modelled as an environment of functions; the side effects relevant to the
claims are collected as an event trace returned next to the result. -/

/-- `registry::SourceType` (union of the variants dispatched on by
`calculate_and_save`). -/
inductive SourceType where
  | Fred
  | Yahoo
  | Tiingo
  | Binance
  | Alternative
  | WorldBank
  | Eia
  | Glassnode
  | Manual
  | Calculated
deriving DecidableEq, Repr

/-- `registry::IndicatorMetadata`, restricted to the fields
`calculate_and_save` reads. -/
structure IndicatorMeta where
  slug : String
  name : String
  source : SourceType
  sourceSymbol : Option String

/-- A `CalculatedIndicator` trait object: its declared inputs and its
pure `calculate` function. -/
structure Calculator where
  requiredInputs : List String
  calculate : List (List DataPoint) → Except String (List DataPoint)

/-- Observable side effects of one orchestrator run. -/
inductive OrchEvent where
  | fetchEv (src : SourceType) (symbol : String)
  | dbRead (slug : String)
  | dbWrite (slug : String)
deriving DecidableEq, Repr

/-- `true` exactly for invocations of a Fetch collaborator. -/
def OrchEvent.isFetch : OrchEvent → Bool
  | .fetchEv _ _ => true
  | _ => false

/-- The orchestrator's collaborators: `Registry::get_metadata`,
`Registry::get_calculator`, `db::get_historical_data`,
`db::save_historical_data`, and the per-provider fetchers
(`fetch st symbol backfill`).  API keys are absorbed into `fetch`. -/
structure OrchEnv where
  metadata : String → Option IndicatorMeta
  calculator : String → Option Calculator
  dbGet : String → Except String (List DataPoint)
  dbSave : String → List DataPoint → Except String Unit
  fetch : SourceType → String → Bool → Except String (List DataPoint)

/-- `orchestrator::fetch_and_save_raw` (`orchestrator.rs:138-205`): fetch
the symbol from the provider, persist under `slug`, return the data.  The
`Manual`/`Glassnode`/`Calculated` arms mirror the source's (unreachable
from `calculate_and_save`) fallback arms. -/
def fetch_and_save_raw (env : OrchEnv) (slug source_symbol : String)
    (source_type : SourceType) (backfill : Bool) :
    Except String (List DataPoint) × List OrchEvent :=
  match source_type with
  | .Manual => (.ok [], [])
  | .Glassnode =>
    (.error ("Source type Glassnode not yet implemented for " ++ slug), [])
  | .Calculated =>
    (.error ("Calculated indicators should not reach fetch_and_save_raw: " ++ slug), [])
  | st =>
    match env.fetch st source_symbol backfill with
    | .error e =>
      (.error ("Fetch failed for " ++ slug ++ " (" ++ source_symbol ++ "): " ++ e),
        [.fetchEv st source_symbol])
    | .ok data =>
      match env.dbSave slug data with
      | .error e =>
        (.error ("Failed to save raw data: " ++ e),
          [.fetchEv st source_symbol, .dbWrite slug])
      | .ok _ => (.ok data, [.fetchEv st source_symbol, .dbWrite slug])

/-- Whether the unknown-slug fallback rejects the slug
(`orchestrator.rs:128`): some lowercase character and no hyphen. -/
def hasLowerChar (s : String) : Bool := s.data.any (fun c => c.isLower)

/-- `indicator_slug.contains("-")`. -/
def hasHyphen (s : String) : Bool := containsSub s "-"

/-- The dependency-resolution loop of the `Calculated` arm
(`orchestrator.rs:97-109`): each required slug is resolved through
`resolveDep` when `fetchDeps` is true, and read from the store
(`db::get_historical_data`) when it is false; inputs are collected in
declared order, stopping at the first error (the `?` operator). -/
def resolveInputs
    (resolveDep : String → Except String (List DataPoint) × List OrchEvent)
    (env : OrchEnv) (fetchDeps : Bool) :
    List String → Except String (List (List DataPoint)) × List OrchEvent
  | [] => (.ok [], [])
  | r :: rest =>
    let step :=
      if fetchDeps then resolveDep r
      else
        match env.dbGet r with
        | .ok d => (.ok d, [OrchEvent.dbRead r])
        | .error e =>
          (.error ("Failed to read dependency " ++ r ++ " from DB: " ++ e),
            [OrchEvent.dbRead r])
    match step with
    | (.error e, evs) => (.error e, evs)
    | (.ok d, evs) =>
      match resolveInputs resolveDep env fetchDeps rest with
      | (.ok ds, evs2) => (.ok (d :: ds), evs ++ evs2)
      | (.error e, evs2) => (.error e, evs ++ evs2)

/-- `orchestrator::calculate_and_save` (`orchestrator.rs:19-135`),
resolving one slug: dispatch on the registry metadata's source type;
`Calculated` recursively resolves the declared inputs (always with
`fetch_deps = true`, matching the source) and persists the result;
an unregistered slug falls back to a direct FRED fetch unless it has a
lowercase character and no hyphen.  The `fuel` argument only bounds the
recursion depth (the source recurses unboundedly and has no cycle
detection). -/
def calculate_and_save (env : OrchEnv) :
    Nat → String → Bool → Bool → Except String (List DataPoint) × List OrchEvent
  | 0, _, _, _ => (.error "recursion fuel exhausted", [])
  | fuel + 1, slug, backfill, fetchDeps =>
    match env.metadata slug with
    | some meta =>
      match meta.source with
      | .Fred => fetch_and_save_raw env slug (meta.sourceSymbol.getD slug) .Fred backfill
      | .Yahoo => fetch_and_save_raw env slug (meta.sourceSymbol.getD slug) .Yahoo backfill
      | .Tiingo => fetch_and_save_raw env slug (meta.sourceSymbol.getD slug) .Tiingo backfill
      | .Binance => fetch_and_save_raw env slug (meta.sourceSymbol.getD slug) .Binance backfill
      | .Alternative =>
        let symbol := meta.sourceSymbol.getD slug
        let symbolToUse := if symbol = slug then slug else symbol
        fetch_and_save_raw env slug symbolToUse .Alternative backfill
      | .WorldBank => fetch_and_save_raw env slug (meta.sourceSymbol.getD slug) .WorldBank backfill
      | .Eia => fetch_and_save_raw env slug (meta.sourceSymbol.getD slug) .Eia backfill
      | .Glassnode => (.error ("Glassnode fetcher not implemented for " ++ slug), [])
      | .Manual => (.ok [], [])
      | .Calculated =>
        match env.calculator slug with
        | none => (.error ("Calculator implementation not found for " ++ slug), [])
        | some c =>
          match resolveInputs (fun r => calculate_and_save env fuel r backfill true)
              env fetchDeps c.requiredInputs with
          | (.error e, evs) => (.error e, evs)
          | (.ok inputs, evs) =>
            match c.calculate inputs with
            | .error e => (.error ("Calculation failed for " ++ slug ++ ": " ++ e), evs)
            | .ok data =>
              match env.dbSave slug data with
              | .error e =>
                (.error ("Failed to save calculated indicator: " ++ e),
                  evs ++ [OrchEvent.dbWrite slug])
              | .ok _ => (.ok data, evs ++ [OrchEvent.dbWrite slug])
    | none =>
      if hasLowerChar slug && !(hasHyphen slug) then
        (.error ("Unknown indicator \x27" ++ slug ++ "\x27. Not a valid external ID."), [])
      else
        fetch_and_save_raw env slug slug .Fred backfill

/-- The `YieldCurve10Y2Y` calculator (`yield_curve.rs:11-24`). -/
def yieldCurve10y2y : Calculator where
  requiredInputs := ["us_10y", "us_2y"]
  calculate := fun inputs => calculate_spread inputs "10Y (DGS10)" "2Y (DGS2)"

/-! ### C3: the unknown-slug fallback -/

theorem fetchEv_mem_fetch_and_save_raw (env : OrchEnv)
    (slug symbol : String) (backfill : Bool) :
    OrchEvent.fetchEv .Fred symbol
      ∈ (fetch_and_save_raw env slug symbol .Fred backfill).2 := by
  unfold fetch_and_save_raw
  cases hf : env.fetch .Fred symbol backfill with
  | error e => simp [hf]
  | ok data =>
    cases hs : env.dbSave slug data with
    | error e => simp [hf, hs]
    | ok u => simp [hf, hs]

/-- C3 (amended).  For an unregistered slug, `calculate_and_save` fails
with `UnknownIndicator` — performing no fetch and no other side effect —
exactly when the slug has **both** some lowercase character **and** no
hyphen; in every other case (no lowercase character **or** a hyphen
present) it attempts the direct default-provider (FRED) fetch, using the
slug itself as both slug and symbol.  (The claim as frozen required "no
lowercase and no hyphen" for the fetch; the code's rejection test is
`has_lowercase && !contains("-")`, so a slug with a lowercase character
*and* a hyphen is fetched, see `claim_C3_counterexample`.) -/
theorem claim_C3_unknown_slug_amended
    (env : OrchEnv) (fuel : Nat) (slug : String) (backfill fetchDeps : Bool)
    (hmeta : env.metadata slug = none) :
    (hasLowerChar slug = true → hasHyphen slug = false →
      calculate_and_save env (fuel + 1) slug backfill fetchDeps
        = (.error ("Unknown indicator \x27" ++ slug ++ "\x27. Not a valid external ID."),
            [])) ∧
    ((hasLowerChar slug = false ∨ hasHyphen slug = true) →
      calculate_and_save env (fuel + 1) slug backfill fetchDeps
          = fetch_and_save_raw env slug slug .Fred backfill ∧
        OrchEvent.fetchEv .Fred slug
          ∈ (calculate_and_save env (fuel + 1) slug backfill fetchDeps).2) := by
  constructor
  · intro hl hh
    unfold calculate_and_save
    rw [hmeta]
    rw [if_pos (by rw [hl, hh]; rfl)]
  · intro hcond
    have heq : calculate_and_save env (fuel + 1) slug backfill fetchDeps
        = fetch_and_save_raw env slug slug .Fred backfill := by
      unfold calculate_and_save
      rw [hmeta]
      rw [if_neg (by rcases hcond with h | h <;> simp [h])]
    exact ⟨heq, by rw [heq]; exact fetchEv_mem_fetch_and_save_raw env slug slug backfill⟩

/-- A minimal concrete orchestrator environment with an empty registry:
every slug is unregistered, every fetch succeeds with an empty series. -/
def envO : OrchEnv where
  metadata := fun _ => none
  calculator := fun _ => none
  dbGet := fun _ => .ok []
  dbSave := fun _ _ => .ok ()
  fetch := fun _ _ _ => .ok []

/-- Counterexample to C3 as frozen: the slug `"my-custom"` is
unregistered and contains **both** a lowercase character and a hyphen, so
by the claim it should fail with `UnknownIndicator` without attempting
any fetch; the code instead attempts the direct FRED fetch (the fetch
event occurs, and the result is the fetch's success, not an
`UnknownIndicator` error). -/
theorem claim_C3_counterexample :
    hasLowerChar "my-custom" = true ∧
    hasHyphen "my-custom" = true ∧
    envO.metadata "my-custom" = none ∧
    OrchEvent.fetchEv .Fred "my-custom"
      ∈ (calculate_and_save envO 1 "my-custom" false true).2 ∧
    (calculate_and_save envO 1 "my-custom" false true).1 = .ok [] := by
  refine ⟨by decide, by decide, rfl, ?_, rfl⟩
  decide

/-- Witness for the amended C3 at concrete inputs: the unregistered
all-uppercase slug `"DGS10X"` triggers the direct FRED fetch attempt. -/
theorem claim_C3_unknown_slug_amended_witness :
    OrchEvent.fetchEv .Fred "DGS10X"
      ∈ (calculate_and_save envO 1 "DGS10X" false true).2 :=
  ((claim_C3_unknown_slug_amended envO 0 "DGS10X" false true rfl).2
    (Or.inl (by decide))).2

/-! ### C6: dependency acquisition and the `fetch_deps` flag -/

/-- Spec-side description of the `fetch_deps = false` path: every
required input is read from the already-persisted store
(`db::get_historical_data`), in declared order, stopping at the first
error. -/
def readDepsSpec (env : OrchEnv) :
    List String → Except String (List (List DataPoint)) × List OrchEvent
  | [] => (.ok [], [])
  | r :: rest =>
    match env.dbGet r with
    | .error e =>
      (.error ("Failed to read dependency " ++ r ++ " from DB: " ++ e),
        [OrchEvent.dbRead r])
    | .ok d =>
      match readDepsSpec env rest with
      | (.ok ds, evs2) => (.ok (d :: ds), OrchEvent.dbRead r :: evs2)
      | (.error e, evs2) => (.error e, OrchEvent.dbRead r :: evs2)

theorem resolveInputs_false_eq_readDepsSpec
    (resolveDep : String → Except String (List DataPoint) × List OrchEvent)
    (env : OrchEnv) (reqs : List String) :
    resolveInputs resolveDep env false reqs = readDepsSpec env reqs := by
  induction reqs with
  | nil => rfl
  | cons r rest ih =>
    unfold resolveInputs readDepsSpec
    rw [if_neg (by simp)]
    cases hg : env.dbGet r with
    | error e => simp [hg]
    | ok d =>
      rw [ih]
      cases hr : readDepsSpec env rest with
      | mk res evs2 =>
        cases res with
        | error e => simp [hg, hr]
        | ok ds => simp [hg, hr]

theorem readDepsSpec_events_dbRead (env : OrchEnv) (reqs : List String) :
    ∀ ev ∈ (readDepsSpec env reqs).2, ev.isFetch = false := by
  induction reqs with
  | nil => intro ev hev; simp [readDepsSpec] at hev
  | cons r rest ih =>
    intro ev hev
    unfold readDepsSpec at hev
    cases hg : env.dbGet r with
    | error e =>
      rw [hg] at hev
      simp only [List.mem_singleton] at hev
      rw [hev]; rfl
    | ok d =>
      rw [hg] at hev
      cases hr : readDepsSpec env rest with
      | mk res evs2 =>
        rw [hr] at hev
        cases res with
        | error e =>
          rcases List.mem_cons.mp hev with h | h
          · rw [h]; rfl
          · exact ih ev (by rw [hr]; exact h)
        | ok ds =>
          rcases List.mem_cons.mp hev with h | h
          · rw [h]; rfl
          · exact ih ev (by rw [hr]; exact h)

theorem resolveInputs_true_ok
    (resolveDep : String → Except String (List DataPoint) × List OrchEvent)
    (env : OrchEnv) (reqs : List String) :
    ∀ (inputs : List (List DataPoint)) (evs : List OrchEvent),
    resolveInputs resolveDep env true reqs = (.ok inputs, evs) →
    inputs.length = reqs.length ∧
    ∀ i r, reqs.get? i = some r →
      ∃ d, inputs.get? i = some d ∧ (resolveDep r).1 = .ok d := by
  induction reqs with
  | nil =>
    intro inputs evs h
    unfold resolveInputs at h
    simp only [Prod.mk.injEq] at h
    obtain ⟨h1, _⟩ := h
    cases h1
    exact ⟨rfl, by intro i r hi; simp at hi⟩
  | cons r0 rest ih =>
    intro inputs evs h
    cases hstep : resolveDep r0 with
    | mk res0 evs0 =>
      cases hrec : resolveInputs resolveDep env true rest with
      | mk res2 evs2 =>
        unfold resolveInputs at h
        rw [if_pos rfl] at h
        rw [hstep, hrec] at h
        cases res0 with
        | error e => simp at h
        | ok d =>
          cases res2 with
          | error e => simp at h
          | ok ds =>
            simp only [Prod.mk.injEq, Except.ok.injEq] at h
            obtain ⟨h1, _⟩ := h
            cases h1
            obtain ⟨hlen, hget⟩ := ih ds evs2 hrec
            refine ⟨by simp [hlen], ?_⟩
            intro i r hi
            cases i with
            | zero =>
              simp only [List.get?] at hi
              cases hi
              exact ⟨d, rfl, by rw [hstep]⟩
            | succ n =>
              simp only [List.get?] at hi ⊢
              exact hget n r hi

theorem calcAndSave_calculated_eq (env : OrchEnv) (f : Nat) (slug : String)
    (backfill fetchDeps : Bool) (meta : IndicatorMeta)
    (hmeta : env.metadata slug = some meta) (hsrc : meta.source = .Calculated) :
    calculate_and_save env (f + 1) slug backfill fetchDeps
      = match env.calculator slug with
        | none => (.error ("Calculator implementation not found for " ++ slug), [])
        | some c =>
          match resolveInputs (fun r => calculate_and_save env f r backfill true)
              env fetchDeps c.requiredInputs with
          | (.error e, evs) => (.error e, evs)
          | (.ok inputs, evs) =>
            match c.calculate inputs with
            | .error e => (.error ("Calculation failed for " ++ slug ++ ": " ++ e), evs)
            | .ok data =>
              match env.dbSave slug data with
              | .error e =>
                (.error ("Failed to save calculated indicator: " ++ e),
                  evs ++ [OrchEvent.dbWrite slug])
              | .ok _ => (.ok data, evs ++ [OrchEvent.dbWrite slug]) := by
  conv_lhs => rw [calculate_and_save]
  rw [hmeta]
  dsimp only
  rw [hsrc]

theorem calcAndSave_false_no_fetch (env : OrchEnv) (fuel : Nat) (slug : String)
    (backfill : Bool) (meta : IndicatorMeta)
    (hmeta : env.metadata slug = some meta) (hsrc : meta.source = .Calculated) :
    ∀ ev ∈ (calculate_and_save env fuel slug backfill false).2,
      ev.isFetch = false := by
  cases fuel with
  | zero => intro ev hev; simp [calculate_and_save] at hev
  | succ f =>
    intro ev hev
    rw [calcAndSave_calculated_eq env f slug backfill false meta hmeta hsrc] at hev
    cases hcal : env.calculator slug with
    | none => rw [hcal] at hev; simp at hev
    | some c =>
      rw [hcal] at hev
      dsimp only at hev
      rw [resolveInputs_false_eq_readDepsSpec] at hev
      have hevs2 := readDepsSpec_events_dbRead env c.requiredInputs
      cases hr : readDepsSpec env c.requiredInputs with
      | mk res evs2 =>
        rw [hr] at hev
        rw [hr] at hevs2
        cases res with
        | error e =>
          dsimp only at hev
          exact hevs2 ev hev
        | ok inputs =>
          dsimp only at hev
          cases hc : c.calculate inputs with
          | error e =>
            rw [hc] at hev
            dsimp only at hev
            exact hevs2 ev hev
          | ok data =>
            rw [hc] at hev
            dsimp only at hev
            cases hs : env.dbSave slug data with
            | error e =>
              rw [hs] at hev
              dsimp only at hev
              simp only [List.mem_append, List.mem_singleton] at hev
              rcases hev with hev | hev
              · exact hevs2 ev hev
              · rw [hev]; rfl
            | ok u =>
              rw [hs] at hev
              dsimp only at hev
              simp only [List.mem_append, List.mem_singleton] at hev
              rcases hev with hev | hev
              · exact hevs2 ev hev
              · rw [hev]; rfl

/-- C6.  For a Calculated indicator: (1) resolving with
`fetchDeps = false` never invokes any Fetch collaborator (there is no
fetch event in the trace), for **every** environment — in particular the
store contents are arbitrary, so this holds even when a dependency is
itself stale; (2) with `fetchDeps = false` the inputs are obtained by
reading the already-persisted series from the Store
(`db::get_historical_data`), in declared order (`readDepsSpec`), and the
resolver for dependencies is never consulted; (3) with `fetchDeps = true`
every successfully collected input list pairs the i-th declared input
with the result of the recursive `calculate_and_save … fetchDeps=true`
call on the i-th required slug, in declared order. -/
theorem claim_C6_fetchdeps :
    (∀ (env : OrchEnv) (fuel : Nat) (slug : String) (backfill : Bool)
      (meta : IndicatorMeta),
      env.metadata slug = some meta → meta.source = .Calculated →
      ∀ ev ∈ (calculate_and_save env fuel slug backfill false).2,
        ev.isFetch = false) ∧
    (∀ (resolveDep : String → Except String (List DataPoint) × List OrchEvent)
      (env : OrchEnv) (reqs : List String),
      resolveInputs resolveDep env false reqs = readDepsSpec env reqs) ∧
    (∀ (env : OrchEnv) (fuel : Nat) (backfill : Bool) (reqs : List String)
      (inputs : List (List DataPoint)) (evs : List OrchEvent),
      resolveInputs (fun r => calculate_and_save env fuel r backfill true)
          env true reqs = (.ok inputs, evs) →
      inputs.length = reqs.length ∧
      ∀ i r, reqs.get? i = some r →
        ∃ d, inputs.get? i = some d ∧
          (calculate_and_save env fuel r backfill true).1 = .ok d) :=
  ⟨fun env fuel slug backfill meta hmeta hsrc =>
      calcAndSave_false_no_fetch env fuel slug backfill meta hmeta hsrc,
    fun resolveDep env reqs => resolveInputs_false_eq_readDepsSpec resolveDep env reqs,
    fun env fuel backfill reqs inputs evs h =>
      resolveInputs_true_ok (fun r => calculate_and_save env fuel r backfill true)
        env reqs inputs evs h⟩

/-! ### C9: dependency composition through the yield-curve spread -/

/-- A concrete environment holding the registry entries of the 10Y−2Y
yield-curve spread and its two inputs, with the input series already
persisted in the store (timestamps `t1, t2`) and no working fetcher. -/
def env9 (t1 t2 : Int) : OrchEnv where
  metadata := fun s =>
    if s = "yield_curve_10y_2y" then
      some ⟨"yield_curve_10y_2y", "Yield Curve Spread (10Y - 2Y)", .Calculated, none⟩
    else if s = "us_10y" then
      some ⟨"us_10y", "10-Year Treasury Yield", .Fred, some "DGS10"⟩
    else if s = "us_2y" then
      some ⟨"us_2y", "2-Year Treasury Yield", .Fred, some "DGS2"⟩
    else none
  calculator := fun s =>
    if s = "yield_curve_10y_2y" then some yieldCurve10y2y else none
  dbGet := fun s =>
    if s = "us_10y" then .ok [⟨t1, 10⟩, ⟨t2, 12⟩]
    else if s = "us_2y" then .ok [⟨t1, 4⟩, ⟨t2, 4⟩]
    else .ok []
  dbSave := fun _ _ => .ok ()
  fetch := fun _ _ _ => .error "offline"

theorem align_series_two_point (t1 t2 : Int) (h : t1 < t2)
    (a1 a2 b1 b2 : ℚ) :
    align_series [⟨t1, a1⟩, ⟨t2, a2⟩] [⟨t1, b1⟩, ⟨t2, b2⟩] "inner"
      = [(t1, a1, b1), (t2, a2, b2)] := by
  have h1 : ¬ (t2 < t1) := by omega
  have h2 : ¬ (t2 = t1) := by omega
  have h3 : ¬ (t2 ≤ t1) := by omega
  simp [align_series, toSortedMap, insertSorted, alignGo, advanceB, h1, h2, h3]

/-- C9.  For the yield-curve spread (a Calculated indicator whose
computation subtracts its second input from its first, joined on
timestamp): with inputs `X = [(t1,10),(t2,12)]` and `Y = [(t1,4),(t2,4)]`
on identical timestamps, the calculated series is exactly
`[(t1,6),(t2,8)]` — both for the bare `calculate_spread` computation and
when resolved end-to-end through the orchestrator with the inputs read
from the store. -/
theorem claim_C9_dependency_composition (t1 t2 : Int) (h : t1 < t2) :
    calculate_spread [[⟨t1, 10⟩, ⟨t2, 12⟩], [⟨t1, 4⟩, ⟨t2, 4⟩]]
        "10Y (DGS10)" "2Y (DGS2)" = .ok [⟨t1, 6⟩, ⟨t2, 8⟩] ∧
    (calculate_and_save (env9 t1 t2) 1 "yield_curve_10y_2y" false false).1
      = .ok [⟨t1, 6⟩, ⟨t2, 8⟩] := by
  have hspread : calculate_spread [[⟨t1, 10⟩, ⟨t2, 12⟩], [⟨t1, 4⟩, ⟨t2, 4⟩]]
      "10Y (DGS10)" "2Y (DGS2)" = .ok [⟨t1, 6⟩, ⟨t2, 8⟩] := by
    unfold calculate_spread
    rw [if_neg (by simp)]
    rw [show ([[⟨t1, 10⟩, ⟨t2, 12⟩], [⟨t1, 4⟩, ⟨t2, 4⟩]] :
        List (List DataPoint)).getD 0 [] = [⟨t1, 10⟩, ⟨t2, 12⟩] from rfl]
    rw [show ([[⟨t1, 10⟩, ⟨t2, 12⟩], [⟨t1, 4⟩, ⟨t2, 4⟩]] :
        List (List DataPoint)).getD 1 [] = [⟨t1, 4⟩, ⟨t2, 4⟩] from rfl]
    rw [align_series_two_point t1 t2 h]
    norm_num
  refine ⟨hspread, ?_⟩
  rw [calcAndSave_calculated_eq (env9 t1 t2) 0 "yield_curve_10y_2y" false false
    ⟨"yield_curve_10y_2y", "Yield Curve Spread (10Y - 2Y)", .Calculated, none⟩
    rfl rfl]
  rw [show (env9 t1 t2).calculator "yield_curve_10y_2y" = some yieldCurve10y2y
    from rfl]
  dsimp only
  rw [resolveInputs_false_eq_readDepsSpec]
  rw [show readDepsSpec (env9 t1 t2) yieldCurve10y2y.requiredInputs
      = (.ok [[⟨t1, 10⟩, ⟨t2, 12⟩], [⟨t1, 4⟩, ⟨t2, 4⟩]],
          [OrchEvent.dbRead "us_10y", OrchEvent.dbRead "us_2y"]) from rfl]
  dsimp only
  rw [show yieldCurve10y2y.calculate [[⟨t1, 10⟩, ⟨t2, 12⟩], [⟨t1, 4⟩, ⟨t2, 4⟩]]
      = calculate_spread [[⟨t1, 10⟩, ⟨t2, 12⟩], [⟨t1, 4⟩, ⟨t2, 4⟩]]
          "10Y (DGS10)" "2Y (DGS2)" from rfl]
  rw [hspread]
  rfl

/-- Witness for C9 at concrete timestamps `t1 = 0 < 1 = t2`. -/
theorem claim_C9_dependency_composition_witness :
    calculate_spread [[⟨0, 10⟩, ⟨1, 12⟩], [⟨0, 4⟩, ⟨1, 4⟩]]
        "10Y (DGS10)" "2Y (DGS2)" = .ok [⟨0, 6⟩, ⟨1, 8⟩] ∧
    (calculate_and_save (env9 0 1) 1 "yield_curve_10y_2y" false false).1
      = .ok [⟨0, 6⟩, ⟨1, 8⟩] :=
  claim_C9_dependency_composition 0 1 (by decide)

/-- Witness for C6 at a concrete input: resolving the yield-curve spread
with `fetchDeps = false` produces a trace whose events are store
reads/writes only (the store read of `"us_10y"` is such an event, and no
event is a fetch). -/
theorem claim_C6_fetchdeps_witness :
    OrchEvent.isFetch (OrchEvent.dbRead "us_10y") = false :=
  claim_C6_fetchdeps.1 (env9 0 1) 1 "yield_curve_10y_2y" false
    ⟨"yield_curve_10y_2y", "Yield Curve Spread (10Y - 2Y)", .Calculated, none⟩
    rfl rfl (OrchEvent.dbRead "us_10y") (by decide)

/-! ## `core/scheduler.rs`: `run_pending_updates`

The SQLite state relevant to the scheduler is the per-slug `SyncStatus`
triple; it is modelled as a function from slug to record.  The stale set,
the credential lookup, and the per-slug resolution outcome
(`orchestrator::calculate_and_save(...).map(|_| ())`) are inputs.  The
observable effects (alert check, status writes, resolution attempts, the
phase-2 consistency pass, the risk backfill, the `indicators-updated`
emission) are collected as an event trace; rate-limiter waits and
inter-chunk sleeps are pure delays with no observable effect. -/

/-- Per-slug mutable sync status (`indicators.update_status`,
`error_message`, `last_updated_at`). -/
structure SyncStatusRec where
  updateStatus : Option String
  errorMessage : Option String
  lastUpdatedAt : Option Int
deriving DecidableEq, Repr

/-- `db::update_indicator_status` (`db.rs:80-121`): sets status and error
message; `last_updated_at` is set to now only when the status is
`"success"`, otherwise left alone. -/
def update_indicator_status (now : Int) (st : String → SyncStatusRec)
    (slug status : String) (err : Option String) : String → SyncStatusRec :=
  fun s =>
    if s = slug then
      if status = "success" then ⟨some status, err, some now⟩
      else ⟨some status, err, (st s).lastUpdatedAt⟩
    else st s

/-- Observable events of one `run_pending_updates` invocation. -/
inductive SyncEvent where
  | alertsCheck
  | statusSet (slug status : String)
  | attemptResolve (slug : String)
  | phase2Consistency
  | riskBackfill
  | emitUpdated
deriving DecidableEq, Repr

/-- `true` exactly for resolution attempts. -/
def isAttempt : SyncEvent → Bool
  | .attemptResolve _ => true
  | _ => false

/-- The quota/auth/bad-request sniff of the batch loop
(`scheduler.rs:146`). -/
def isQuotaError (e : String) : Bool :=
  containsSub e "403" || containsSub e "429" || containsSub e "400" ||
    containsSub e "Limit Reached"

/-- Accumulator of the batch loop: the store state, the run's success
tally (`update_count`), the event trace, and whether the quota early-stop
fired. -/
structure BatchAcc where
  st : String → SyncStatusRec
  count : Nat
  events : List SyncEvent
  stopped : Bool

/-- One batch entry (`scheduler.rs:130-153`): mark `updating`, resolve,
mark `success`/`error`; a quota-flavoured failure sets the stop flag. -/
def runEntry (now : Int) (resolve : String → Except String Unit)
    (a : BatchAcc) (entry : String × String) : BatchAcc :=
  let st1 := update_indicator_status now a.st entry.1 "updating" none
  match resolve entry.1 with
  | .ok _ =>
    { st := update_indicator_status now st1 entry.1 "success" none,
      count := a.count + 1,
      events := a.events ++ [SyncEvent.statusSet entry.1 "updating",
        SyncEvent.attemptResolve entry.1, SyncEvent.statusSet entry.1 "success"],
      stopped := false }
  | .error e =>
    { st := update_indicator_status now st1 entry.1 "error" (some e),
      count := a.count,
      events := a.events ++ [SyncEvent.statusSet entry.1 "updating",
        SyncEvent.attemptResolve entry.1, SyncEvent.statusSet entry.1 "error"],
      stopped := isQuotaError e }

/-- The `for (slug, source) in chunk` loop: entry by entry, returning
immediately when an entry fired the quota stop (`return Ok(())`). -/
def runChunkEntries (now : Int) (resolve : String → Except String Unit) :
    List (String × String) → BatchAcc → BatchAcc
  | [], a => a
  | entry :: rest, a =>
    let a1 := runEntry now resolve a entry
    if a1.stopped then a1 else runChunkEntries now resolve rest a1

/-- The `for chunk in remaining_indicators.chunks(BATCH_SIZE)` loop.  The
1-second inter-chunk sleep after a full chunk is a pure delay and has no
observable effect. -/
def runChunks (now : Int) (resolve : String → Except String Unit) :
    List (List (String × String)) → BatchAcc → BatchAcc
  | [], a => a
  | ch :: rest, a =>
    let a1 := runChunkEntries now resolve ch a
    if a1.stopped then a1 else runChunks now resolve rest a1

/-- `slice::chunks n` (structural recursion over a length fuel so that
the kernel can evaluate it). -/
def chunksGo (n : Nat) : Nat → List α → List (List α)
  | _, [] => []
  | 0, _ :: _ => []
  | fuel + 1, x :: xs => ((x :: xs).take n) :: chunksGo n fuel ((x :: xs).drop n)

/-- `remaining_indicators.chunks(n)`. -/
def chunksOf (n : Nat) (l : List α) : List (List α) := chunksGo n l.length l

/-- `scheduler::run_pending_updates` (`scheduler.rs:45-185`).  Inputs:
the clock, the `FRED_API_KEY` settings row, the stale set (the result of
`db::get_stale_indicators`), the per-slug resolution outcome, and the
initial store state.  Returns the `anyhow::Result`, the final store
state, and the event trace. -/
def run_pending_updates (now : Int) (apiKey : Option String)
    (stale : List (String × String)) (resolve : String → Except String Unit)
    (st : String → SyncStatusRec) :
    Except String Unit × (String → SyncStatusRec) × List SyncEvent :=
  match apiKey with
  | none => (.ok (), st, [])
  | some _ =>
    match stale with
    | [] => (.ok (), st, [SyncEvent.alertsCheck])
    | (cslug, _csrc) :: rest =>
      let st1 := update_indicator_status now st cslug "updating" none
      match resolve cslug with
      | .error e =>
        (.error "Canary probe failed.",
          update_indicator_status now st1 cslug "error" (some e),
          [SyncEvent.alertsCheck, SyncEvent.statusSet cslug "updating",
            SyncEvent.attemptResolve cslug, SyncEvent.statusSet cslug "error"])
      | .ok _ =>
        let st2 := update_indicator_status now st1 cslug "success" none
        let a := runChunks now resolve (chunksOf 10 rest)
          ⟨st2, 1,
            [SyncEvent.alertsCheck, SyncEvent.statusSet cslug "updating",
              SyncEvent.attemptResolve cslug, SyncEvent.statusSet cslug "success"],
            false⟩
        if a.stopped then (.ok (), a.st, a.events)
        else
          let evs2 := a.events ++ [SyncEvent.phase2Consistency, SyncEvent.riskBackfill]
          (.ok (), a.st,
            if a.count > 0 then evs2 ++ [SyncEvent.emitUpdated] else evs2)

/-- C7.  When the primary credential (`FRED_API_KEY`) is absent from
settings, `run_pending_updates` returns success immediately as a no-op:
no error, the store state is untouched (so no indicator's status, error
message, or `lastUpdatedAt` mutates), and nothing at all is attempted
(empty event trace). -/
theorem claim_C7_missing_credentials (now : Int)
    (stale : List (String × String)) (resolve : String → Except String Unit)
    (st : String → SyncStatusRec) :
    run_pending_updates now none stale resolve st = (.ok (), st, []) := rfl

theorem update_apply_same (now : Int) (st : String → SyncStatusRec)
    (slug status : String) (err : Option String) :
    update_indicator_status now st slug status err slug
      = if status = "success" then ⟨some status, err, some now⟩
        else ⟨some status, err, (st slug).lastUpdatedAt⟩ := by
  simp [update_indicator_status]

theorem update_apply_ne (now : Int) (st : String → SyncStatusRec)
    (slug status : String) (err : Option String) (s : String) (h : s ≠ slug) :
    update_indicator_status now st slug status err s = st s := by
  simp [update_indicator_status, h]

/-- C2.  If resolving the canary (first entry of a non-empty stale set)
fails, `run_pending_updates` marks that entry `error` with the failure
message (leaving its `lastUpdatedAt` alone), returns the fatal
`"Canary probe failed."` error, attempts no batch entry (the only
resolution attempt in the trace is the canary's), leaves every other
slug's status record untouched and never sets any other slug's status
(in particular never to `updating`), and the phase-2 consistency pass
does not run. -/
theorem claim_C2_canary_gating (now : Int) (key : String)
    (stale : List (String × String)) (resolve : String → Except String Unit)
    (st : String → SyncStatusRec) (cslug csrc : String)
    (rest : List (String × String)) (e : String)
    (hstale : stale = (cslug, csrc) :: rest)
    (hres : resolve cslug = .error e) :
    (run_pending_updates now (some key) stale resolve st).1
        = .error "Canary probe failed." ∧
    (run_pending_updates now (some key) stale resolve st).2.1 cslug
        = ⟨some "error", some e, (st cslug).lastUpdatedAt⟩ ∧
    (∀ s, s ≠ cslug →
      (run_pending_updates now (some key) stale resolve st).2.1 s = st s) ∧
    ((run_pending_updates now (some key) stale resolve st).2.2.filter isAttempt
        = [SyncEvent.attemptResolve cslug]) ∧
    (∀ s status, s ≠ cslug →
      SyncEvent.statusSet s status
        ∉ (run_pending_updates now (some key) stale resolve st).2.2) ∧
    SyncEvent.phase2Consistency
      ∉ (run_pending_updates now (some key) stale resolve st).2.2 := by
  subst hstale
  have hrun : run_pending_updates now (some key) ((cslug, csrc) :: rest) resolve st
      = (.error "Canary probe failed.",
          update_indicator_status now
            (update_indicator_status now st cslug "updating" none) cslug "error" (some e),
          [SyncEvent.alertsCheck, SyncEvent.statusSet cslug "updating",
            SyncEvent.attemptResolve cslug, SyncEvent.statusSet cslug "error"]) := by
    unfold run_pending_updates
    dsimp only
    rw [hres]
  rw [hrun]
  dsimp only
  refine ⟨rfl, ?_, ?_, rfl, ?_, by simp⟩
  · rw [update_apply_same]
    rw [if_neg (by decide)]
    rw [update_apply_same]
    rw [if_neg (by decide)]
  · intro s hs
    rw [update_apply_ne _ _ _ _ _ _ hs, update_apply_ne _ _ _ _ _ _ hs]
  · intro s status hs
    simp only [List.mem_cons, List.not_mem_nil, or_false]
    push_neg
    refine ⟨by simp, ?_, by simp, ?_⟩
    · intro hcontra
      exact hs (by injection hcontra)
    · intro hcontra
      exact hs (by injection hcontra)

/-- Witness for C2 at concrete inputs: a failing canary aborts the run
with the fatal error. -/
theorem claim_C2_canary_gating_witness :
    (run_pending_updates 0 (some "k") [("a", "FRED"), ("b", "FRED")]
        (fun _ => .error "boom") (fun _ => ⟨none, none, none⟩)).1
      = .error "Canary probe failed." :=
  (claim_C2_canary_gating 0 "k" [("a", "FRED"), ("b", "FRED")]
    (fun _ => .error "boom") (fun _ => ⟨none, none, none⟩) "a" "FRED"
    [("b", "FRED")] "boom" rfl rfl).1

/-! ### C1: the quota early-stop of the batch phase -/

theorem runChunkEntries_append (now : Int) (resolve : String → Except String Unit)
    (l1 l2 : List (String × String)) (a : BatchAcc) (ha : a.stopped = false) :
    runChunkEntries now resolve (l1 ++ l2) a
      = (if (runChunkEntries now resolve l1 a).stopped
         then runChunkEntries now resolve l1 a
         else runChunkEntries now resolve l2 (runChunkEntries now resolve l1 a)) := by
  induction l1 generalizing a with
  | nil =>
    simp only [List.nil_append, runChunkEntries, ha]
    rw [if_neg (by simp)]
  | cons entry rest ih =>
    by_cases h1 : (runEntry now resolve a entry).stopped = true
    · have hL : runChunkEntries now resolve ((entry :: rest) ++ l2) a
          = runEntry now resolve a entry := by
        show (if (runEntry now resolve a entry).stopped then _ else _) = _
        rw [if_pos h1]
      have hR : runChunkEntries now resolve (entry :: rest) a
          = runEntry now resolve a entry := by
        show (if (runEntry now resolve a entry).stopped then _ else _) = _
        rw [if_pos h1]
      rw [hL, hR, if_pos h1]
    · have h1b : (runEntry now resolve a entry).stopped = false := by
        simpa using h1
      have hL : runChunkEntries now resolve ((entry :: rest) ++ l2) a
          = runChunkEntries now resolve (rest ++ l2) (runEntry now resolve a entry) := by
        show (if (runEntry now resolve a entry).stopped then _
              else runChunkEntries now resolve (rest ++ l2)
                (runEntry now resolve a entry)) = _
        rw [if_neg h1]
      have hR : runChunkEntries now resolve (entry :: rest) a
          = runChunkEntries now resolve rest (runEntry now resolve a entry) := by
        show (if (runEntry now resolve a entry).stopped then _ else _) = _
        rw [if_neg h1]
      rw [hL, hR]
      exact ih (runEntry now resolve a entry) h1b

theorem runChunks_chunksOf (now : Int) (resolve : String → Except String Unit)
    (l : List (String × String)) (a : BatchAcc) (ha : a.stopped = false) :
    runChunks now resolve (chunksOf 10 l) a = runChunkEntries now resolve l a := by
  suffices h : ∀ (fuel : Nat) (l : List (String × String)) (a : BatchAcc),
      l.length ≤ fuel → a.stopped = false →
      runChunks now resolve (chunksGo 10 fuel l) a = runChunkEntries now resolve l a by
    exact h l.length l a le_rfl ha
  intro fuel
  induction fuel with
  | zero =>
    intro l a hlen _
    have : l = [] := List.eq_nil_of_length_eq_zero (by omega)
    subst this
    rfl
  | succ f ih =>
    intro l a hlen ha
    cases l with
    | nil => rfl
    | cons x xs =>
      show runChunks now resolve
          (((x :: xs).take 10) :: chunksGo 10 f ((x :: xs).drop 10)) a
        = runChunkEntries now resolve (x :: xs) a
      unfold runChunks
      rw [← List.take_append_drop 10 (x :: xs)]
      rw [runChunkEntries_append now resolve _ _ a ha]
      rw [List.take_append_drop 10 (x :: xs)]
      by_cases hstop : (runChunkEntries now resolve ((x :: xs).take 10) a).stopped = true
      · rw [if_pos hstop, if_pos hstop]
      · rw [if_neg hstop, if_neg hstop]
        exact ih ((x :: xs).drop 10) _
          (by simp only [List.length_drop, List.length_cons] at *; omega)
          (by simpa using hstop)

/-- The state after successfully processing a list of entries in order:
each is marked `updating` then `success`. -/
def procSucc (now : Int) (l : List (String × String))
    (st : String → SyncStatusRec) : String → SyncStatusRec :=
  l.foldl (fun s p =>
    update_indicator_status now
      (update_indicator_status now s p.1 "updating" none) p.1 "success" none) st

theorem procSucc_ne (now : Int) (l : List (String × String))
    (st : String → SyncStatusRec) (s : String) (hs : s ∉ l.map Prod.fst) :
    procSucc now l st s = st s := by
  induction l generalizing st with
  | nil => rfl
  | cons p rest ih =>
    simp only [List.map_cons, List.mem_cons] at hs
    push_neg at hs
    unfold procSucc
    rw [List.foldl_cons]
    have := ih (update_indicator_status now
      (update_indicator_status now st p.1 "updating" none) p.1 "success" none) hs.2
    unfold procSucc at this
    rw [this]
    rw [update_apply_ne _ _ _ _ _ _ hs.1, update_apply_ne _ _ _ _ _ _ hs.1]

theorem procSucc_mem (now : Int) (l : List (String × String))
    (st : String → SyncStatusRec) (p : String × String) (hp : p ∈ l)
    (hnd : (l.map Prod.fst).Nodup) :
    procSucc now l st p.1 = ⟨some "success", none, some now⟩ := by
  induction l generalizing st with
  | nil => simp at hp
  | cons q rest ih =>
    simp only [List.map_cons, List.nodup_cons] at hnd
    rcases List.mem_cons.mp hp with hq | hq
    · rw [hq]
      unfold procSucc
      rw [List.foldl_cons]
      have hnotin : q.1 ∉ rest.map Prod.fst := hnd.1
      have hred := procSucc_ne now rest
        (update_indicator_status now
          (update_indicator_status now st q.1 "updating" none) q.1 "success" none)
        q.1 hnotin
      unfold procSucc at hred
      rw [hred]
      rw [update_apply_same]
      rw [if_pos rfl]
    · unfold procSucc
      rw [List.foldl_cons]
      exact ih _ hq hnd.2

/-- The events written by successfully processing `l` in order. -/
def succEvents (l : List (String × String)) : List SyncEvent :=
  l.flatMap (fun p => [SyncEvent.statusSet p.1 "updating",
    SyncEvent.attemptResolve p.1, SyncEvent.statusSet p.1 "success"])

theorem runChunkEntries_all_ok (now : Int) (resolve : String → Except String Unit)
    (l : List (String × String)) :
    ∀ (a : BatchAcc), a.stopped = false → (∀ p ∈ l, resolve p.1 = .ok ()) →
    runChunkEntries now resolve l a
      = ⟨procSucc now l a.st, a.count + l.length, a.events ++ succEvents l, false⟩ := by
  induction l with
  | nil =>
    intro a ha _
    show a = _
    cases a with
    | mk st c evs stop =>
      simp only at ha
      subst ha
      simp [procSucc, succEvents]
  | cons p rest ih =>
    intro a ha hok
    have hp : resolve p.1 = .ok () := hok p (List.mem_cons_self _ _)
    unfold runChunkEntries runEntry
    rw [hp]
    dsimp only
    rw [if_neg (by simp)]
    rw [ih _ rfl (fun q hq => hok q (List.mem_cons_of_mem _ hq))]
    simp only [procSucc, succEvents, List.foldl_cons, List.flatMap_cons,
      List.length_cons, BatchAcc.mk.injEq]
    exact ⟨trivial, by omega, by simp [List.append_assoc], trivial⟩

theorem runChunkEntries_quota_stop (now : Int)
    (resolve : String → Except String Unit)
    (pre : List (String × String)) (bslug bsrc : String)
    (post : List (String × String)) (e : String) (a : BatchAcc)
    (ha : a.stopped = false)
    (hpre : ∀ p ∈ pre, resolve p.1 = .ok ())
    (hbad : resolve bslug = .error e)
    (hquota : isQuotaError e = true) :
    runChunkEntries now resolve (pre ++ (bslug, bsrc) :: post) a
      = ⟨update_indicator_status now
            (update_indicator_status now (procSucc now pre a.st) bslug "updating" none)
            bslug "error" (some e),
          a.count + pre.length,
          a.events ++ succEvents pre
            ++ [SyncEvent.statusSet bslug "updating", SyncEvent.attemptResolve bslug,
                SyncEvent.statusSet bslug "error"],
          true⟩ := by
  rw [runChunkEntries_append now resolve pre ((bslug, bsrc) :: post) a ha]
  rw [runChunkEntries_all_ok now resolve pre a ha hpre]
  rw [if_neg (by simp)]
  have hstep : runEntry now resolve
      ⟨procSucc now pre a.st, a.count + pre.length, a.events ++ succEvents pre, false⟩
      (bslug, bsrc)
      = ⟨update_indicator_status now
            (update_indicator_status now (procSucc now pre a.st) bslug "updating" none)
            bslug "error" (some e),
          a.count + pre.length,
          a.events ++ succEvents pre
            ++ [SyncEvent.statusSet bslug "updating", SyncEvent.attemptResolve bslug,
                SyncEvent.statusSet bslug "error"],
          true⟩ := by
    unfold runEntry
    dsimp only
    rw [hbad]
    dsimp only
    rw [hquota]
  show (if (runEntry now resolve
      ⟨procSucc now pre a.st, a.count + pre.length, a.events ++ succEvents pre, false⟩
      (bslug, bsrc)).stopped
    then runEntry now resolve
      ⟨procSucc now pre a.st, a.count + pre.length, a.events ++ succEvents pre, false⟩
      (bslug, bsrc)
    else runChunkEntries now resolve post
      (runEntry now resolve
        ⟨procSucc now pre a.st, a.count + pre.length, a.events ++ succEvents pre, false⟩
        (bslug, bsrc))) = _
  rw [hstep]
  rfl

theorem filter_isAttempt_succEvents (pre : List (String × String)) :
    (succEvents pre).filter isAttempt
      = pre.map (fun p => SyncEvent.attemptResolve p.1) := by
  induction pre with
  | nil => rfl
  | cons p rest ih =>
    simp only [succEvents, List.flatMap_cons, List.filter_append] at ih ⊢
    rw [ih]
    rfl

/-- C1 (amended).  During the batch phase, if an entry's resolution fails
with a quota/auth/bad-request message (containing "403", "429", "400" or
"Limit Reached"): that entry's status is set to `error` with the message
(its `lastUpdatedAt` untouched), batch processing stops immediately (no
later entry is attempted or has its status set — in this or any later
chunk), entries before it (and the canary) end as `success`, every later
entry's whole status record is exactly its prior one, and the run returns
success — but the phase-2 consistency pass does **not** execute (the
early `return Ok(())` at `scheduler.rs:148` leaves the function before
phase 2; the claim as frozen asserted the consistency phase still runs,
see `claim_C1_counterexample`). -/
theorem claim_C1_quota_stop_amended (now : Int) (key : String)
    (stale : List (String × String)) (resolve : String → Except String Unit)
    (st : String → SyncStatusRec) (cslug csrc : String)
    (pre : List (String × String)) (bslug bsrc : String)
    (post : List (String × String)) (e : String)
    (hstale : stale = (cslug, csrc) :: (pre ++ (bslug, bsrc) :: post))
    (hcanary : resolve cslug = .ok ())
    (hpre : ∀ p ∈ pre, resolve p.1 = .ok ())
    (hbad : resolve bslug = .error e)
    (hquota : isQuotaError e = true)
    (hnodup : (stale.map Prod.fst).Nodup) :
    (run_pending_updates now (some key) stale resolve st).1 = .ok () ∧
    (run_pending_updates now (some key) stale resolve st).2.1 cslug
      = ⟨some "success", none, some now⟩ ∧
    (∀ p ∈ pre, (run_pending_updates now (some key) stale resolve st).2.1 p.1
      = ⟨some "success", none, some now⟩) ∧
    (run_pending_updates now (some key) stale resolve st).2.1 bslug
      = ⟨some "error", some e, (st bslug).lastUpdatedAt⟩ ∧
    (∀ q ∈ post,
      (run_pending_updates now (some key) stale resolve st).2.1 q.1 = st q.1) ∧
    (∀ q ∈ post, ∀ status, SyncEvent.statusSet q.1 status
      ∉ (run_pending_updates now (some key) stale resolve st).2.2) ∧
    ((run_pending_updates now (some key) stale resolve st).2.2.filter isAttempt
      = (cslug :: (pre.map Prod.fst ++ [bslug])).map SyncEvent.attemptResolve) ∧
    SyncEvent.phase2Consistency
      ∉ (run_pending_updates now (some key) stale resolve st).2.2 := by
  subst hstale
  have hmap : (((cslug, csrc) :: (pre ++ (bslug, bsrc) :: post)).map Prod.fst)
      = cslug :: (pre.map Prod.fst ++ bslug :: post.map Prod.fst) := by simp
  rw [hmap] at hnodup
  obtain ⟨hc_nin, hnd1⟩ := List.nodup_cons.mp hnodup
  rw [List.nodup_append] at hnd1
  obtain ⟨hnd_pre, hnd_bpost, hdisj⟩ := hnd1
  obtain ⟨hb_nin_post, _hnd_post⟩ := List.nodup_cons.mp hnd_bpost
  have hc_pre : cslug ∉ pre.map Prod.fst :=
    fun h => hc_nin (List.mem_append_left _ h)
  have hc_b : cslug ≠ bslug := fun h =>
    hc_nin (List.mem_append_right _ (h ▸ List.mem_cons_self _ _))
  have hpost_c : ∀ q ∈ post, q.1 ≠ cslug := fun q hq h =>
    hc_nin (List.mem_append_right _
      (List.mem_cons_of_mem _ (h ▸ List.mem_map_of_mem _ hq)))
  have hb_pre : bslug ∉ pre.map Prod.fst :=
    fun h => (hdisj h) (List.mem_cons_self _ _)
  have hpost_pre : ∀ q ∈ post, q.1 ∉ pre.map Prod.fst := fun q hq h =>
    (hdisj h) (List.mem_cons_of_mem _ (List.mem_map_of_mem _ hq))
  have hpost_b : ∀ q ∈ post, q.1 ≠ bslug := fun q hq h =>
    hb_nin_post (h ▸ List.mem_map_of_mem _ hq)
  have hrun : run_pending_updates now (some key)
      ((cslug, csrc) :: (pre ++ (bslug, bsrc) :: post)) resolve st
      = (.ok (),
          update_indicator_status now
            (update_indicator_status now
              (procSucc now pre
                (update_indicator_status now
                  (update_indicator_status now st cslug "updating" none)
                  cslug "success" none))
              bslug "updating" none)
            bslug "error" (some e),
          [SyncEvent.alertsCheck, SyncEvent.statusSet cslug "updating",
            SyncEvent.attemptResolve cslug, SyncEvent.statusSet cslug "success"]
            ++ succEvents pre
            ++ [SyncEvent.statusSet bslug "updating", SyncEvent.attemptResolve bslug,
                SyncEvent.statusSet bslug "error"]) := by
    unfold run_pending_updates
    dsimp only
    rw [hcanary]
    dsimp only
    rw [runChunks_chunksOf now resolve _ _ rfl]
    rw [runChunkEntries_quota_stop now resolve pre bslug bsrc post e _ rfl hpre
      hbad hquota]
    rfl
  rw [hrun]
  dsimp only
  refine ⟨rfl, ?_, ?_, ?_, ?_, ?_, ?_, ?_⟩
  · rw [update_apply_ne _ _ _ _ _ _ hc_b, update_apply_ne _ _ _ _ _ _ hc_b]
    rw [procSucc_ne _ _ _ _ hc_pre]
    rw [update_apply_same]
    rw [if_pos rfl]
  · intro p hp
    have hpb : p.1 ≠ bslug := fun h => hb_pre (h ▸ List.mem_map_of_mem _ hp)
    rw [update_apply_ne _ _ _ _ _ _ hpb, update_apply_ne _ _ _ _ _ _ hpb]
    exact procSucc_mem now pre _ p hp hnd_pre
  · rw [update_apply_same]
    rw [if_neg (by decide)]
    rw [update_apply_same]
    rw [if_neg (by decide)]
    rw [procSucc_ne _ _ _ _ hb_pre]
    rw [update_apply_ne _ _ _ _ _ _ (Ne.symm hc_b),
      update_apply_ne _ _ _ _ _ _ (Ne.symm hc_b)]
  · intro q hq
    rw [update_apply_ne _ _ _ _ _ _ (hpost_b q hq),
      update_apply_ne _ _ _ _ _ _ (hpost_b q hq)]
    rw [procSucc_ne _ _ _ _ (hpost_pre q hq)]
    rw [update_apply_ne _ _ _ _ _ _ (hpost_c q hq),
      update_apply_ne _ _ _ _ _ _ (hpost_c q hq)]
  · intro q hq status hmem
    simp only [succEvents, List.mem_append, List.mem_cons, List.mem_flatMap,
      List.not_mem_nil, or_false] at hmem
    rcases hmem with ((h | h | h | h) | ⟨p, hp, h | h | h⟩) | (h | h | h)
    · exact SyncEvent.noConfusion h
    · exact hpost_c q hq (by injection h)
    · exact SyncEvent.noConfusion h
    · exact hpost_c q hq (by injection h)
    · exact hpost_pre q hq (by injection h with h1 _; exact h1 ▸ List.mem_map_of_mem _ hp)
    · exact SyncEvent.noConfusion h
    · exact hpost_pre q hq (by injection h with h1 _; exact h1 ▸ List.mem_map_of_mem _ hp)
    · exact hpost_b q hq (by injection h)
    · exact SyncEvent.noConfusion h
    · exact hpost_b q hq (by injection h)
  · rw [List.filter_append, List.filter_append, filter_isAttempt_succEvents]
    simp [isAttempt]
  · simp [succEvents, List.mem_append, List.mem_flatMap]

/-- Concrete scenario for the quota early-stop: a canary plus ten batch
entries, the fourth of which fails with a message containing `"429"`. -/
def cexStale : List (String × String) :=
  [("canary", "FRED"), ("e1", "FRED"), ("e2", "FRED"), ("e3", "FRED"),
   ("e4", "FRED"), ("e5", "FRED"), ("e6", "FRED"), ("e7", "FRED"),
   ("e8", "FRED"), ("e9", "FRED"), ("e10", "FRED")]

/-- Resolution outcomes of the concrete scenario: only `"e4"` fails. -/
def cexResolve : String → Except String Unit :=
  fun s => if s = "e4" then .error "API rate limit: HTTP 429" else .ok ()

/-- Initial store state of the concrete scenario: all slugs idle. -/
def cexSt : String → SyncStatusRec := fun _ => ⟨none, none, none⟩

/-- Counterexample to C1 as frozen.  In the concrete scenario every part
of the claim's setup holds and the code behaves as claimed for the stop
itself (entries 1–3 `success`, entry 4 `error`, entries 5–10 untouched,
run returns success) — but the phase-2 consistency pass does **not**
execute (no `phase2Consistency` event occurs: the quota stop returns from
the whole function), refuting the claim's "the consistency phase still
executes". -/
theorem claim_C1_counterexample :
    (run_pending_updates 0 (some "key") cexStale cexResolve cexSt).1
        = Except.ok () ∧
    (run_pending_updates 0 (some "key") cexStale cexResolve cexSt).2.1 "e1"
        = ⟨some "success", none, some 0⟩ ∧
    (run_pending_updates 0 (some "key") cexStale cexResolve cexSt).2.1 "e2"
        = ⟨some "success", none, some 0⟩ ∧
    (run_pending_updates 0 (some "key") cexStale cexResolve cexSt).2.1 "e3"
        = ⟨some "success", none, some 0⟩ ∧
    (run_pending_updates 0 (some "key") cexStale cexResolve cexSt).2.1 "e4"
        = ⟨some "error", some "API rate limit: HTTP 429", none⟩ ∧
    (["e5", "e6", "e7", "e8", "e9", "e10"].all (fun s =>
      decide ((run_pending_updates 0 (some "key") cexStale cexResolve cexSt).2.1 s
        = ⟨none, none, none⟩)) = true) ∧
    SyncEvent.phase2Consistency
      ∉ (run_pending_updates 0 (some "key") cexStale cexResolve cexSt).2.2 := by
  refine ⟨rfl, by decide, by decide, by decide, by decide, by decide, by decide⟩

/-- Witness for the amended C1 at the concrete scenario: the run returns
success and entry 4 is marked `error` with the quota message, with the
phase-2 event absent. -/
theorem claim_C1_quota_stop_amended_witness :
    (run_pending_updates 0 (some "key") cexStale cexResolve cexSt).1
        = Except.ok () ∧
    (run_pending_updates 0 (some "key") cexStale cexResolve cexSt).2.1 "e4"
        = ⟨some "error", some "API rate limit: HTTP 429", (cexSt "e4").lastUpdatedAt⟩ ∧
    SyncEvent.phase2Consistency
      ∉ (run_pending_updates 0 (some "key") cexStale cexResolve cexSt).2.2 := by
  have h := claim_C1_quota_stop_amended 0 "key" cexStale cexResolve cexSt
    "canary" "FRED" [("e1", "FRED"), ("e2", "FRED"), ("e3", "FRED")] "e4" "FRED"
    [("e5", "FRED"), ("e6", "FRED"), ("e7", "FRED"), ("e8", "FRED"),
      ("e9", "FRED"), ("e10", "FRED")] "API rate limit: HTTP 429"
    rfl rfl
    (by intro p hp
        simp only [List.mem_cons, List.not_mem_nil, or_false] at hp
        rcases hp with rfl | rfl | rfl <;> rfl)
    rfl (by decide) (by decide)
  exact ⟨h.1, h.2.2.2.1, h.2.2.2.2.2.2.2⟩
